import Mathlib

/-!
Shallow embedding of the poll subsystem of the leoconnect backend:
the Poll document model (models/Poll.js), the pre-save tally recomputation,
and the poll controller operations (controllers/pollController.js), together
with the ownership middleware (middleware/roleCheck.js) as used by the poll
routes (routes/polls.js).

Conventions of the embedding:
* Mongoose ObjectIds are modelled as strings (the code always compares them
  via toString()).
* Dates are modelled as integer millisecond timestamps; the JavaScript
  comparison new Date(poll.endDate) < new Date() becomes endDateMs < now.
* The request-body field optionIndex is a JavaScript value that may be a
  number, undefined, or NaN; it is modelled by the type JSNum below so that
  the comparison semantics of the guard (NaN/undefined compare false) are
  preserved.
* A controller returns a response together with the poll state that is
  persisted by the end of the request; on every failure path the store is
  not written, so the persisted state is the input state.
-/

namespace LeoConnect

/-- One entry of the options array (optionSchema in models/Poll.js):
a text and a derived vote counter (default 0). -/
structure PollOption where
  text : String
  votes : Nat
  deriving Repr, DecidableEq

/-- One entry of the vote ledger (voteSchema in models/Poll.js): the voting
user (ObjectId as string) and the chosen option index. The index is stored
as an Int because the schema only constrains it at validation time. -/
structure Vote where
  user : String
  optionIndex : Int
  deriving Repr, DecidableEq

/-- The Poll document (pollSchema in models/Poll.js), restricted to the
fields the poll controller and middleware read or write. -/
structure Poll where
  question : String
  options : List PollOption
  votes : List Vote
  endDateMs : Int
  createdBy : String
  allowMultiple : Bool
  deriving Repr, DecidableEq

/-- The test this.options[vote.optionIndex] performed by the pre-save hook:
a JavaScript array lookup at an Int index yields a defined element exactly
when 0 <= idx < length. -/
def validIdx (len : Nat) (idx : Int) : Bool :=
  decide (0 ≤ idx) && decide (idx < (len : Int))

theorem validIdx_iff (len : Nat) (idx : Int) :
    validIdx len idx = true ↔ 0 ≤ idx ∧ idx < (len : Int) := by
  simp [validIdx]

instance : Inhabited PollOption := ⟨⟨"", 0⟩⟩

/-- The statement this.options[idx].votes += 1 of the pre-save hook, guarded
by the existence check: if idx resolves to an option, increment that
option's counter, otherwise leave the array unchanged. -/
def bumpAt (opts : List PollOption) (idx : Int) : List PollOption :=
  if validIdx opts.length idx = true then
    opts.set idx.toNat
      { opts[idx.toNat]! with votes := opts[idx.toNat]!.votes + 1 }
  else
    opts

/-- The first loop of the pre-save hook: reset every option's counter to 0. -/
def resetVotes (opts : List PollOption) : List PollOption :=
  opts.map fun o => { o with votes := 0 }

/-- The second loop of the pre-save hook: walk the ledger and increment the
counter of each referenced option that exists. -/
def applyVotes (opts : List PollOption) (vs : List Vote) : List PollOption :=
  vs.foldl (fun acc v => bumpAt acc v.optionIndex) opts

/-- The pre-save middleware of pollSchema: reset all option counters, then
recount them from the vote ledger. Runs on every save. -/
def recompute (p : Poll) : Poll :=
  { p with options := applyVotes (resetVotes p.options) p.votes }

/-- The number of ledger entries that chose option index i. -/
def countVotesFor (vs : List Vote) (i : Nat) : Nat :=
  (vs.filter fun v => v.optionIndex = (i : Int)).length

theorem countVotesFor_nil (i : Nat) : countVotesFor [] i = 0 := rfl

theorem countVotesFor_cons (v : Vote) (vs : List Vote) (i : Nat) :
    countVotesFor (v :: vs) i =
      (if v.optionIndex = (i : Int) then 1 else 0) + countVotesFor vs i := by
  by_cases h : v.optionIndex = (i : Int) <;>
    simp [countVotesFor, h, List.filter, Nat.add_comm]

theorem bumpAt_length (opts : List PollOption) (idx : Int) :
    (bumpAt opts idx).length = opts.length := by
  unfold bumpAt
  split <;> simp

theorem applyVotes_length (opts : List PollOption) (vs : List Vote) :
    (applyVotes opts vs).length = opts.length := by
  induction vs generalizing opts with
  | nil => rfl
  | cons v rest ih =>
      simp only [applyVotes, List.foldl_cons] at *
      rw [ih, bumpAt_length]

theorem resetVotes_length (opts : List PollOption) :
    (resetVotes opts).length = opts.length := by
  simp [resetVotes]

theorem bumpAt_valid (opts : List PollOption) (idx : Int)
    (hv : validIdx opts.length idx = true) (hlt : idx.toNat < opts.length) :
    bumpAt opts idx =
      opts.set idx.toNat
        { opts[idx.toNat] with votes := opts[idx.toNat].votes + 1 } := by
  unfold bumpAt
  rw [if_pos hv, getElem!_pos opts idx.toNat hlt]

theorem bumpAt_invalid (opts : List PollOption) (idx : Int)
    (hv : ¬ validIdx opts.length idx = true) :
    bumpAt opts idx = opts := by
  unfold bumpAt
  rw [if_neg hv]

theorem bumpAt_get (opts : List PollOption) (idx : Int)
    (i : Nat) (hi : i < opts.length) (hib : i < (bumpAt opts idx).length) :
    (bumpAt opts idx)[i] =
      (if idx = (i : Int) then
        { opts[i] with votes := opts[i].votes + 1 }
      else opts[i]) := by
  by_cases hv : validIdx opts.length idx = true
  · rcases (validIdx_iff opts.length idx).mp hv with ⟨h0, h1⟩
    have hlt : idx.toNat < opts.length := by omega
    simp only [bumpAt_valid opts idx hv hlt]
    by_cases heq : idx = (i : Int)
    · have hii : idx.toNat = i := by omega
      simp [List.getElem_set, hii, heq]
    · have hne : idx.toNat ≠ i := by omega
      simp [List.getElem_set, hne, heq]
  · have heq : idx ≠ (i : Int) := by
      intro h
      subst h
      exact hv ((validIdx_iff opts.length (i : Int)).mpr
        ⟨by omega, by exact_mod_cast hi⟩)
    simp [bumpAt_invalid opts idx hv, heq]

theorem applyVotes_get (vs : List Vote) (opts : List PollOption)
    (i : Nat) (hi : i < opts.length) (hia : i < (applyVotes opts vs).length) :
    (applyVotes opts vs)[i] =
      { opts[i] with votes := opts[i].votes + countVotesFor vs i } := by
  induction vs generalizing opts with
  | nil =>
      simp [applyVotes, countVotesFor_nil]
  | cons v rest ih =>
      simp only [applyVotes, List.foldl_cons] at *
      have hb : i < (bumpAt opts v.optionIndex).length := by
        rw [bumpAt_length]; exact hi
      rw [ih (bumpAt opts v.optionIndex) hb hia,
        bumpAt_get opts v.optionIndex i hi hb, countVotesFor_cons]
      by_cases h : v.optionIndex = (i : Int)
      · simp [h]
        omega
      · simp [h]

theorem resetVotes_get (opts : List PollOption) (i : Nat)
    (hi : i < opts.length) (hir : i < (resetVotes opts).length) :
    (resetVotes opts)[i] = { opts[i] with votes := 0 } := by
  simp [resetVotes]

theorem recompute_votes (p : Poll) : (recompute p).votes = p.votes := rfl

theorem recompute_length (p : Poll) :
    (recompute p).options.length = p.options.length := by
  simp [recompute, applyVotes_length, resetVotes_length]

/-- After the pre-save hook, every option's counter equals the number of
ledger entries that chose it. -/
theorem recompute_get (p : Poll) (i : Nat) (hi : i < p.options.length)
    (hic : i < (recompute p).options.length) :
    (recompute p).options[i] =
      { p.options[i] with votes := countVotesFor p.votes i } := by
  have hr : i < (resetVotes p.options).length := by
    rw [resetVotes_length]; exact hi
  show (applyVotes (resetVotes p.options) p.votes)[i] = _
  rw [applyVotes_get p.votes (resetVotes p.options) i hr hic,
    resetVotes_get p.options i hi hr]
  simp

/-- The total of the stored per-option counters. -/
def sumVotes (opts : List PollOption) : Nat :=
  (opts.map fun o => o.votes).sum

theorem sum_map_set (l : List PollOption) (i : Nat) (o : PollOption)
    (hi : i < l.length) :
    sumVotes (l.set i o) + (l[i]).votes = sumVotes l + o.votes := by
  induction l generalizing i with
  | nil => simp at hi
  | cons a t ih =>
      cases i with
      | zero => simp [sumVotes]; omega
      | succ n =>
          have hn : n < t.length := by
            simpa using hi
          have := ih n hn
          simp only [List.set, sumVotes, List.map_cons, List.sum_cons,
            List.getElem_cons_succ] at *
          omega

theorem bumpAt_sum (opts : List PollOption) (idx : Int) :
    sumVotes (bumpAt opts idx) =
      sumVotes opts + (if validIdx opts.length idx = true then 1 else 0) := by
  by_cases hv : validIdx opts.length idx = true
  · rcases (validIdx_iff opts.length idx).mp hv with ⟨h0, h1⟩
    have hlt : idx.toNat < opts.length := by omega
    rw [bumpAt_valid opts idx hv hlt, if_pos hv]
    have hs := sum_map_set opts idx.toNat
      { opts[idx.toNat] with votes := opts[idx.toNat].votes + 1 } hlt
    dsimp only at hs ⊢
    omega
  · rw [bumpAt_invalid opts idx hv, if_neg hv]
    omega

theorem applyVotes_sum (vs : List Vote) (opts : List PollOption) :
    sumVotes (applyVotes opts vs) =
      sumVotes opts +
        (vs.filter fun v => validIdx opts.length v.optionIndex).length := by
  induction vs generalizing opts with
  | nil => simp [applyVotes]
  | cons v rest ih =>
      simp only [applyVotes, List.foldl_cons] at *
      rw [ih (bumpAt opts v.optionIndex)]
      rw [bumpAt_sum opts v.optionIndex, bumpAt_length]
      by_cases h : validIdx opts.length v.optionIndex = true
      · simp [List.filter, h]
        omega
      · simp [List.filter, h]

theorem resetVotes_sum (opts : List PollOption) :
    sumVotes (resetVotes opts) = 0 := by
  induction opts with
  | nil => rfl
  | cons o t ih =>
      simp only [resetVotes, sumVotes, List.map_cons, List.sum_cons,
        List.map_map] at *
      omega

/-- After the pre-save hook, the sum of the option counters equals the
number of ledger entries whose index resolves to an existing option. -/
theorem recompute_sum (p : Poll) :
    sumVotes (recompute p).options =
      (p.votes.filter fun v => validIdx p.options.length v.optionIndex).length := by
  show sumVotes (applyVotes (resetVotes p.options) p.votes) = _
  rw [applyVotes_sum, resetVotes_sum, resetVotes_length]
  omega

/-!
The vote-casting controller (voteOnPoll in controllers/pollController.js).

The request body's optionIndex is an arbitrary JSON value; the controller
compares it with < and >= and then indexes the options array with it.
JSNum models the values relevant to those operations: a number, the value
undefined (field absent from the body), and NaN.
-/

/-- A JavaScript value used as an option index: a number, undefined, or NaN. -/
inductive JSNum where
  | num : Int → JSNum
  | undef : JSNum
  | nan : JSNum
  deriving Repr, DecidableEq

/-- JavaScript comparison x < c for c a number: false whenever x is
undefined or NaN (both coerce to NaN, and NaN comparisons are false). -/
def jsLt : JSNum → Int → Bool
  | JSNum.num a, b => decide (a < b)
  | JSNum.undef, _ => false
  | JSNum.nan, _ => false

/-- JavaScript comparison x >= c for c a number: false whenever x is
undefined or NaN. -/
def jsGe : JSNum → Int → Bool
  | JSNum.num a, b => decide (b ≤ a)
  | JSNum.undef, _ => false
  | JSNum.nan, _ => false

/-- The in-place mutation existingVote.optionIndex = optionIndex performed
on the entry returned by Array.prototype.find: the first ledger entry of
the given user gets the new index, everything else is untouched. -/
def updateFirst (vs : List Vote) (userId : String) (idx : Int) : List Vote :=
  match vs with
  | [] => []
  | v :: rest =>
      if v.user = userId then { v with optionIndex := idx } :: rest
      else v :: updateFirst rest userId idx

/-- The response of the vote controller. Each constructor is one exit of
voteOnPoll: the 400 responses with messages Poll has ended / Invalid
option / You have already voted on this poll, the catch-all 500 response
Failed to submit vote, and the 200 response carrying totalVotes. -/
inductive VoteResult where
  | pollEnded : VoteResult
  | invalidOption : VoteResult
  | alreadyVoted : VoteResult
  | storeError : VoteResult
  | success : Nat → VoteResult
  deriving Repr, DecidableEq

/-- The body of voteOnPoll (controllers/pollController.js, after the poll
has been loaded), paired with the poll state persisted by the end of the
request: on every non-success exit nothing is written, so the persisted
state is the input poll. On success the poll is saved, which fires the
pre-save recomputation. An undefined or NaN optionIndex passes the range
guard (both comparisons are false), so execution reaches
poll.options[optionIndex].votes += 1, which throws on the undefined
element; the catch block answers with the generic 500 and the store is
never written. -/
def voteOnPoll (p : Poll) (userId : String) (optionIndex : JSNum)
    (now : Int) : VoteResult × Poll :=
  if p.endDateMs < now then
    (VoteResult.pollEnded, p)
  else if jsLt optionIndex 0 || jsGe optionIndex (p.options.length : Int) then
    (VoteResult.invalidOption, p)
  else
    match p.votes.find? fun v => v.user = userId with
    | some _ =>
        if p.allowMultiple then
          match optionIndex with
          | JSNum.num idx =>
              let newVotes := updateFirst p.votes userId idx
              let saved := recompute
                { p with votes := newVotes, options := bumpAt p.options idx }
              (VoteResult.success newVotes.length, saved)
          | _ => (VoteResult.storeError, p)
        else
          (VoteResult.alreadyVoted, p)
    | none =>
        match optionIndex with
        | JSNum.num idx =>
            let newVotes := p.votes ++ [{ user := userId, optionIndex := idx }]
            let saved := recompute
              { p with votes := newVotes, options := bumpAt p.options idx }
            (VoteResult.success newVotes.length, saved)
        | _ => (VoteResult.storeError, p)

theorem updateFirst_length (vs : List Vote) (u : String) (j : Int) :
    (updateFirst vs u j).length = vs.length := by
  induction vs with
  | nil => rfl
  | cons v rest ih =>
      unfold updateFirst
      by_cases h : v.user = u
      · simp [h]
      · simp [h, ih]

/-- Changing the first ledger entry of user u from its stored index to j
moves exactly one unit of count: position k loses one when the replaced
entry pointed at k, and gains one when j points at k. -/
theorem updateFirst_count (vs : List Vote) (u : String) (j : Int) (w : Vote)
    (hf : vs.find? (fun v => v.user = u) = some w) (k : Nat) :
    countVotesFor (updateFirst vs u j) k + (if w.optionIndex = (k : Int) then 1 else 0) =
      countVotesFor vs k + (if j = (k : Int) then 1 else 0) := by
  induction vs with
  | nil => simp at hf
  | cons v rest ih =>
      by_cases h : v.user = u
      · rw [List.find?_cons_of_pos _ (by simp [h])] at hf
        have hw : w = v := by
          injection hf with hf
          exact hf.symm
        subst hw
        unfold updateFirst
        rw [if_pos h, countVotesFor_cons, countVotesFor_cons]
        dsimp only
        split_ifs <;> omega
      · rw [List.find?_cons_of_neg _ (by simp [h])] at hf
        unfold updateFirst
        rw [if_neg h, countVotesFor_cons, countVotesFor_cons]
        have := ih hf
        omega

/-- Appending a ledger entry adds one to the count of its index and leaves
every other count unchanged. -/
theorem countVotesFor_append (vs : List Vote) (v : Vote) (k : Nat) :
    countVotesFor (vs ++ [v]) k =
      countVotesFor vs k + (if v.optionIndex = (k : Int) then 1 else 0) := by
  induction vs with
  | nil =>
      rw [List.nil_append, countVotesFor_cons]
      omega
  | cons a rest ih =>
      rw [List.cons_append, countVotesFor_cons, countVotesFor_cons, ih]
      omega

/-!
Poll creation (createPoll in controllers/pollController.js), restricted to
the options argument, which is the only input the controller itself
validates. The controller rejects a missing options array and one with
fewer than two entries with the 400 response At least two options are
required. Any other options array is handed to Poll.create: mongoose trims
each text and its required validator rejects an option whose text is then
empty, which the catch block turns into the generic 500 response; otherwise
the poll is persisted with every counter at 0.
-/

/-- Whitespace trimming of a text as performed by the schema's trim
option, modelled structurally over the character list: leading and
trailing whitespace characters are removed. -/
def strTrim (s : String) : String :=
  String.mk
    (((s.data.dropWhile Char.isWhitespace).reverse.dropWhile
        Char.isWhitespace).reverse)

/-- The response of createPoll as far as the options array decides it. -/
inductive CreateResult where
  | validationError : CreateResult
  | storeError : CreateResult
  | created : List PollOption → CreateResult
  deriving Repr, DecidableEq

/-- The options-validation path of createPoll: the explicit controller
check, then the schema-level required check on the trimmed texts. -/
def createPoll (options : Option (List String)) : CreateResult :=
  match options with
  | none => CreateResult.validationError
  | some opts =>
      if opts.length < 2 then
        CreateResult.validationError
      else if opts.any fun s => strTrim s = "" then
        CreateResult.storeError
      else
        CreateResult.created
          (opts.map fun t => { text := strTrim t, votes := 0 })

/-!
Result derivation (getPollResults in controllers/pollController.js) over
the totalVotes virtual of the schema (the ledger length). Percentages are
modelled over the rationals.
-/

/-- The totalVotes virtual of pollSchema: the ledger length. -/
def totalVotes (p : Poll) : Nat :=
  p.votes.length

/-- One element of the results array assembled by getPollResults. -/
structure OptionResult where
  text : String
  votes : Nat
  percentage : ℚ
  deriving Repr, DecidableEq

/-- The results computation of getPollResults: per option, its text, its
stored counter, and (option.votes / poll.totalVotes) * 100 when the poll
has votes, 0 otherwise. -/
def getPollResults (p : Poll) : List OptionResult :=
  p.options.map fun o =>
    { text := o.text
      votes := o.votes
      percentage :=
        if 0 < totalVotes p then
          ((o.votes : ℚ) / (totalVotes p : ℚ)) * 100
        else 0 }

/-!
The ownership middleware (requireOwnershipOrWebmaster in
middleware/roleCheck.js) as mounted on PUT /api/polls/:id and
DELETE /api/polls/:id in routes/polls.js with modelName Poll.
-/

/-- Property access resource[field] on a mongoose Poll document, for the
identity-valued fields. The pollSchema declares createdBy but declares no
author path, so reading author on a Poll document yields undefined. -/
def pollDocGet (p : Poll) (field : String) : Option String :=
  if field = "createdBy" then some p.createdBy else none

/-- The decision of requireOwnershipOrWebmaster applied to a Poll: the
middleware computes isOwner from resource.author (short-circuiting to
false when that property is undefined) and isWebmaster from the caller's
role, and lets the request through when either holds. -/
def requireOwnershipOrWebmaster (p : Poll) (callerId : String)
    (callerRole : String) : Bool :=
  let isOwner :=
    match pollDocGet p "author" with
    | some a => a = callerId
    | none => false
  let isWebmaster := callerRole = "webmaster"
  isOwner || isWebmaster

/-- The stored counter of option k of a poll, read as option.votes with
default 0 out of range; a statement-level projection used to phrase the
claims without carrying bound proofs. -/
def optionVotes (p : Poll) (k : Nat) : Nat :=
  (p.options.map fun o => o.votes).getD k 0

theorem optionVotes_eq (p : Poll) (k : Nat) (hk : k < p.options.length) :
    optionVotes p k = (p.options[k]).votes := by
  unfold optionVotes
  rw [List.getD_eq_getElem?_getD, List.getElem?_map,
    List.getElem?_eq_getElem hk]
  rfl

/-- After any save, the stored counter of every option equals the tally of
the saved ledger at that option. -/
theorem recompute_consistent (r : Poll) (k : Nat)
    (hk : k < (recompute r).options.length) :
    ((recompute r).options[k]).votes = countVotesFor (recompute r).votes k := by
  have hkp : k < r.options.length := by
    rw [← recompute_length r]; exact hk
  rw [recompute_get r k hkp hk, recompute_votes]

/-- In-place replacement of the first entry of a user keeps every ledger
entry's index valid as long as the replacement index is valid. -/
theorem updateFirst_valid (vs : List Vote) (u : String) (j : Int) (len : Nat)
    (hall : ∀ v ∈ vs, validIdx len v.optionIndex = true)
    (hj : validIdx len j = true) :
    ∀ v ∈ updateFirst vs u j, validIdx len v.optionIndex = true := by
  induction vs with
  | nil => intro v hv; simp [updateFirst] at hv
  | cons a rest ih =>
      intro v hv
      unfold updateFirst at hv
      by_cases h : a.user = u
      · rw [if_pos h] at hv
        rcases List.mem_cons.mp hv with h1 | h1
        · subst h1; exact hj
        · exact hall v (List.mem_cons.mpr (Or.inr h1))
      · rw [if_neg h] at hv
        rcases List.mem_cons.mp hv with h1 | h1
        · subst h1; exact hall v (List.mem_cons.mpr (Or.inl rfl))
        · exact ih (fun w hw => hall w (List.mem_cons.mpr (Or.inr hw))) v h1

/-- When every ledger entry's index is valid, the recomputed counters sum
to the ledger length. -/
theorem recompute_sum_valid (r : Poll)
    (hall : ∀ v ∈ r.votes, validIdx r.options.length v.optionIndex = true) :
    sumVotes (recompute r).options = (recompute r).votes.length := by
  rw [recompute_sum, recompute_votes]
  congr 1
  exact List.filter_eq_self.mpr hall

/-- C1: for a poll with allowMultiple = false, a voter who already has an
entry in the ledger gets the duplicate-vote rejection on a further cast
that passes the earlier lifecycle and option-range guards, and the poll is
not mutated: the persisted state is exactly the input state, so neither
the ledger length nor any option counter changes. -/
theorem C1_duplicate_vote (p : Poll) (u : String) (n : JSNum) (now : Int)
    (hend : ¬ p.endDateMs < now)
    (hguard : (jsLt n 0 || jsGe n (p.options.length : Int)) = false)
    (hdup : (p.votes.find? fun v => v.user = u).isSome = true)
    (hsingle : p.allowMultiple = false) :
    voteOnPoll p u n now = (VoteResult.alreadyVoted, p) := by
  obtain ⟨w, hw⟩ := Option.isSome_iff_exists.mp hdup
  unfold voteOnPoll
  rw [if_neg hend, if_neg (by simp [hguard])]
  simp [hw, hsingle]

def pollEx1 : Poll :=
  { question := "favorite color"
    options := [⟨"Red", 1⟩, ⟨"Blue", 0⟩]
    votes := [⟨"alice", 0⟩]
    endDateMs := 100
    createdBy := "bob"
    allowMultiple := false }

theorem C1_duplicate_vote_witness :
    voteOnPoll pollEx1 "alice" (JSNum.num 1) 50 =
      (VoteResult.alreadyVoted, pollEx1) :=
  C1_duplicate_vote pollEx1 "alice" (JSNum.num 1) 50 (by decide) (by decide)
    (by decide) rfl

/-- C6: a cast against a poll whose end date is strictly before the
current time is rejected with the poll-ended error, and the poll is not
mutated: the persisted state is exactly the input state. -/
theorem C6_poll_ended (p : Poll) (u : String) (n : JSNum) (now : Int)
    (hend : p.endDateMs < now) :
    voteOnPoll p u n now = (VoteResult.pollEnded, p) := by
  unfold voteOnPoll
  rw [if_pos hend]

def pollEx6 : Poll :=
  { question := "favorite color"
    options := [⟨"Red", 0⟩, ⟨"Blue", 0⟩]
    votes := []
    endDateMs := 100
    createdBy := "bob"
    allowMultiple := false }

theorem C6_poll_ended_witness :
    voteOnPoll pollEx6 "alice" (JSNum.num 0) 200 =
      (VoteResult.pollEnded, pollEx6) :=
  C6_poll_ended pollEx6 "alice" (JSNum.num 0) 200 (by decide)

/-- C8: the pre-save tally recomputation is idempotent: running it twice
yields exactly the same per-option counters as running it once, and it
touches nothing but the option counters (votes are returned unchanged by
recompute_votes). -/
theorem C8_recompute_idempotent (p : Poll) :
    ((recompute (recompute p)).options.map fun o => o.votes) =
      ((recompute p).options.map fun o => o.votes) := by
  apply List.ext_getElem
  · simp [recompute_length]
  · intro k h1 h2
    simp only [List.getElem_map]
    have hq : k < (recompute p).options.length := by
      simpa using h2
    have hqq : k < (recompute (recompute p)).options.length := by
      simpa using h1
    rw [recompute_consistent (recompute p) k hqq,
      recompute_consistent p k hq, recompute_votes]

/-- C9: getPollResults reports percentage 0 for every option when the
ledger is empty, and 100 * votes / totalVotes (over the rationals)
otherwise. -/
theorem C9_percentage (p : Poll) (k : Nat) (hk : k < p.options.length)
    (hkr : k < (getPollResults p).length) :
    (totalVotes p = 0 → ((getPollResults p)[k]).percentage = 0) ∧
    (totalVotes p ≠ 0 → ((getPollResults p)[k]).percentage =
        100 * ((p.options[k]).votes : ℚ) / (totalVotes p : ℚ)) := by
  constructor
  · intro h0
    simp [getPollResults, h0]
  · intro hne
    have hpos : 0 < totalVotes p := Nat.pos_of_ne_zero hne
    simp only [getPollResults, List.getElem_map]
    rw [if_pos hpos, div_mul_eq_mul_div, mul_comm]

def pollEx9 : Poll :=
  { question := "favorite color"
    options := [⟨"Red", 1⟩, ⟨"Blue", 0⟩]
    votes := [⟨"alice", 0⟩]
    endDateMs := 100
    createdBy := "bob"
    allowMultiple := false }

theorem C9_percentage_witness :
    (totalVotes pollEx9 = 0 → ((getPollResults pollEx9)[0]).percentage = 0) ∧
    (totalVotes pollEx9 ≠ 0 → ((getPollResults pollEx9)[0]).percentage =
        100 * ((pollEx9.options[0]).votes : ℚ) / (totalVotes pollEx9 : ℚ)) :=
  C9_percentage pollEx9 0 (by decide) (by decide)

/-- C10: an optionIndex that is undefined or NaN makes both range
comparisons false, so the cast is not rejected as an invalid option;
execution reaches the unguarded indexing poll.options[optionIndex], whose
failure is answered by the generic catch-all error, with nothing
persisted. -/
theorem C10_unguarded_index (p : Poll) (u : String) (n : JSNum) (now : Int)
    (hn : n = JSNum.undef ∨ n = JSNum.nan)
    (hend : ¬ p.endDateMs < now)
    (hdup : ∀ w, p.votes.find? (fun v => v.user = u) = some w →
      p.allowMultiple = true) :
    (jsLt n 0 || jsGe n (p.options.length : Int)) = false ∧
    voteOnPoll p u n now = (VoteResult.storeError, p) := by
  have hguard : (jsLt n 0 || jsGe n (p.options.length : Int)) = false := by
    rcases hn with h | h
    · subst h; rfl
    · subst h; rfl
  refine ⟨hguard, ?_⟩
  unfold voteOnPoll
  rw [if_neg hend, if_neg (by simp [hguard])]
  cases hfind : p.votes.find? fun v => v.user = u with
  | some w =>
      rcases hn with h | h
      · subst h; simp [hfind, hdup w hfind]
      · subst h; simp [hfind, hdup w hfind]
  | none =>
      rcases hn with h | h
      · subst h; simp [hfind]
      · subst h; simp [hfind]

def pollEx10 : Poll :=
  { question := "favorite color"
    options := [⟨"Red", 0⟩, ⟨"Blue", 0⟩]
    votes := []
    endDateMs := 100
    createdBy := "bob"
    allowMultiple := false }

theorem C10_unguarded_index_witness :
    (jsLt JSNum.undef 0 || jsGe JSNum.undef (pollEx10.options.length : Int))
        = false ∧
    voteOnPoll pollEx10 "alice" JSNum.undef 50 =
      (VoteResult.storeError, pollEx10) :=
  C10_unguarded_index pollEx10 "alice" JSNum.undef 50 (Or.inl rfl) (by decide)
    (by intro w hw; simp [List.find?] at hw)

/-- C2: on a poll with allowMultiple = true, a voter whose existing ledger
entry (the one found by the linear scan) chose option i casting a vote for
a different valid option j gets a success, the ledger length is unchanged,
and in the persisted poll option i's counter is one less and option j's
counter one more than the stored counters of the input poll (which agree
with its ledger, as after every save). -/
theorem C2_vote_change (p : Poll) (u : String) (j : Int) (w : Vote) (now : Int)
    (hend : ¬ p.endDateMs < now)
    (hj0 : 0 ≤ j) (hjlen : j < (p.options.length : Int))
    (hmul : p.allowMultiple = true)
    (hf : (p.votes.find? fun v => v.user = u) = some w)
    (hne : w.optionIndex ≠ j)
    (hi0 : 0 ≤ w.optionIndex)
    (hilen : w.optionIndex < (p.options.length : Int))
    (hci : optionVotes p w.optionIndex.toNat =
      countVotesFor p.votes w.optionIndex.toNat)
    (hcj : optionVotes p j.toNat = countVotesFor p.votes j.toNat) :
    (voteOnPoll p u (JSNum.num j) now).1 = VoteResult.success p.votes.length ∧
    (voteOnPoll p u (JSNum.num j) now).2.votes.length = p.votes.length ∧
    optionVotes (voteOnPoll p u (JSNum.num j) now).2 w.optionIndex.toNat =
      optionVotes p w.optionIndex.toNat - 1 ∧
    optionVotes (voteOnPoll p u (JSNum.num j) now).2 j.toNat =
      optionVotes p j.toNat + 1 := by
  have hiN : w.optionIndex.toNat < p.options.length := by omega
  have hjN : j.toNat < p.options.length := by omega
  have hguard : (jsLt (JSNum.num j) 0 ||
      jsGe (JSNum.num j) (p.options.length : Int)) = false := by
    simp [jsLt, jsGe]
    omega
  set r : Poll := { p with votes := updateFirst p.votes u j, options := bumpAt p.options j } with hr
  have hstep : voteOnPoll p u (JSNum.num j) now =
      (VoteResult.success (updateFirst p.votes u j).length, recompute r) := by
    unfold voteOnPoll
    rw [if_neg hend, if_neg (by simp [hguard])]
    simp [hf, hmul, hr]
  have hql : (recompute r).options.length = p.options.length := by
    rw [recompute_length]
    exact bumpAt_length p.options j
  have hcount : ∀ k, k < p.options.length →
      optionVotes (recompute r) k = countVotesFor (updateFirst p.votes u j) k := by
    intro k hk
    have hk2 : k < (recompute r).options.length := by
      rw [hql]; exact hk
    rw [optionVotes_eq _ k hk2, recompute_consistent _ k hk2, recompute_votes]
  have hcast : ((w.optionIndex.toNat : Nat) : Int) = w.optionIndex :=
    Int.toNat_of_nonneg hi0
  have hcastj : ((j.toNat : Nat) : Int) = j := Int.toNat_of_nonneg hj0
  refine ⟨?_, ?_, ?_, ?_⟩
  · rw [hstep]
    show VoteResult.success (updateFirst p.votes u j).length = _
    rw [updateFirst_length]
  · rw [hstep]
    show (recompute r).votes.length = p.votes.length
    rw [recompute_votes]
    exact updateFirst_length p.votes u j
  · rw [hstep]
    show optionVotes (recompute r) w.optionIndex.toNat = _
    rw [hcount _ hiN, hci]
    have h1 := updateFirst_count p.votes u j w hf w.optionIndex.toNat
    rw [hcast, if_pos rfl, if_neg (fun h => hne h.symm)] at h1
    omega
  · rw [hstep]
    show optionVotes (recompute r) j.toNat = _
    rw [hcount _ hjN, hcj]
    have h1 := updateFirst_count p.votes u j w hf j.toNat
    rw [hcastj, if_neg hne, if_pos rfl] at h1
    omega

def pollEx2 : Poll :=
  { question := "favorite color"
    options := [⟨"Red", 1⟩, ⟨"Blue", 0⟩]
    votes := [⟨"alice", 0⟩]
    endDateMs := 100
    createdBy := "bob"
    allowMultiple := true }

theorem C2_vote_change_witness :
    (voteOnPoll pollEx2 "alice" (JSNum.num 1) 50).1 =
      VoteResult.success pollEx2.votes.length ∧
    (voteOnPoll pollEx2 "alice" (JSNum.num 1) 50).2.votes.length =
      pollEx2.votes.length ∧
    optionVotes (voteOnPoll pollEx2 "alice" (JSNum.num 1) 50).2
        ((0 : Int).toNat) =
      optionVotes pollEx2 ((0 : Int).toNat) - 1 ∧
    optionVotes (voteOnPoll pollEx2 "alice" (JSNum.num 1) 50).2
        ((1 : Int).toNat) =
      optionVotes pollEx2 ((1 : Int).toNat) + 1 :=
  C2_vote_change pollEx2 "alice" 1 ⟨"alice", 0⟩ 50 (by decide) (by decide)
    (by decide) rfl (by decide) (by decide) (by decide) (by decide)
    (by decide) (by decide)

/-- C3: whenever a cast succeeds (so the poll was saved, firing the
pre-save recomputation) on a poll all of whose ledger entries referenced
valid options, the persisted poll satisfies: the option counters sum to
the ledger length, and each option's counter is the number of ledger
entries that chose it. -/
theorem C3_tally_consistency (p : Poll) (u : String) (n : JSNum) (now : Int)
    (t : Nat) (q : Poll)
    (hres : voteOnPoll p u n now = (VoteResult.success t, q))
    (hvalid : ∀ v ∈ p.votes, validIdx p.options.length v.optionIndex = true) :
    sumVotes q.options = q.votes.length ∧
    ∀ (k : Nat) (hk : k < q.options.length),
      (q.options[k]).votes = countVotesFor q.votes k := by
  unfold voteOnPoll at hres
  by_cases hend : p.endDateMs < now
  · rw [if_pos hend] at hres
    simp at hres
  rw [if_neg hend] at hres
  by_cases hg : (jsLt n 0 || jsGe n (p.options.length : Int)) = true
  · rw [if_pos hg] at hres
    simp at hres
  rw [if_neg hg] at hres
  cases n with
  | undef =>
      cases hfind : p.votes.find? fun v => v.user = u with
      | some w =>
          rw [hfind] at hres
          by_cases hm : p.allowMultiple = true
          · rw [if_pos hm] at hres
            simp at hres
          · rw [if_neg hm] at hres
            simp at hres
      | none =>
          rw [hfind] at hres
          simp at hres
  | nan =>
      cases hfind : p.votes.find? fun v => v.user = u with
      | some w =>
          rw [hfind] at hres
          by_cases hm : p.allowMultiple = true
          · rw [if_pos hm] at hres
            simp at hres
          · rw [if_neg hm] at hres
            simp at hres
      | none =>
          rw [hfind] at hres
          simp at hres
  | num idx =>
      have hidx : validIdx p.options.length idx = true := by
        simp [jsLt, jsGe] at hg
        rw [validIdx_iff]
        omega
      cases hfind : p.votes.find? fun v => v.user = u with
      | some w =>
          rw [hfind] at hres
          by_cases hm : p.allowMultiple = true
          · rw [if_pos hm] at hres
            have hq : q = recompute
                { p with votes := updateFirst p.votes u idx,
                         options := bumpAt p.options idx } := by
              have := congrArg Prod.snd hres
              simpa using this.symm
            subst hq
            have hall : ∀ v ∈ updateFirst p.votes u idx,
                validIdx (bumpAt p.options idx).length v.optionIndex = true := by
              rw [bumpAt_length]
              exact updateFirst_valid p.votes u idx p.options.length hvalid hidx
            exact ⟨recompute_sum_valid _ hall,
              fun k hk => recompute_consistent _ k hk⟩
          · rw [if_neg hm] at hres
            simp at hres
      | none =>
          rw [hfind] at hres
          simp only [] at hres
          have hq : q = recompute
              { p with votes := p.votes ++ [{ user := u, optionIndex := idx }],
                       options := bumpAt p.options idx } := by
            have := congrArg Prod.snd hres
            simpa using this.symm
          subst hq
          have hall : ∀ v ∈ p.votes ++ [{ user := u, optionIndex := idx }],
              validIdx (bumpAt p.options idx).length v.optionIndex = true := by
            rw [bumpAt_length]
            intro v hv
            rcases List.mem_append.mp hv with h | h
            · exact hvalid v h
            · rcases List.mem_singleton.mp h with rfl
              exact hidx
          exact ⟨recompute_sum_valid _ hall,
            fun k hk => recompute_consistent _ k hk⟩

def pollEx3 : Poll :=
  { question := "favorite color"
    options := [⟨"Red", 1⟩, ⟨"Blue", 0⟩]
    votes := [⟨"alice", 0⟩]
    endDateMs := 100
    createdBy := "bob"
    allowMultiple := false }

def savedEx3 : Poll :=
  { question := "favorite color"
    options := [⟨"Red", 1⟩, ⟨"Blue", 1⟩]
    votes := [⟨"alice", 0⟩, ⟨"carol", 1⟩]
    endDateMs := 100
    createdBy := "bob"
    allowMultiple := false }

theorem C3_tally_consistency_witness :
    sumVotes savedEx3.options = savedEx3.votes.length ∧
    (savedEx3.options[0]).votes = countVotesFor savedEx3.votes 0 := by
  have h := C3_tally_consistency pollEx3 "carol" (JSNum.num 1) 50 2 savedEx3
    (by decide) (by decide)
  exact ⟨h.1, h.2 0 (by decide)⟩

def pollEx4 : Poll :=
  { question := "favorite color"
    options := [⟨"Red", 0⟩, ⟨"Blue", 0⟩]
    votes := []
    endDateMs := 100
    createdBy := "alice"
    allowMultiple := false }

/-- C4 (evaluation at the failing input): the ownership middleware mounted
on poll update and delete reads resource.author, a property the Poll
schema does not define, so the isOwner test is always false on a Poll and
the poll's own creator — here alice, stored in createdBy, calling with the
non-admin role leo_member — is denied. -/
theorem C4_creator_denied :
    pollEx4.createdBy = "alice" ∧
    pollDocGet pollEx4 "author" = none ∧
    requireOwnershipOrWebmaster pollEx4 "alice" "leo_member" = false := by
  refine ⟨rfl, rfl, rfl⟩

def optsEx5 : List String := List.replicate 11 "x"

/-- C5 (counterexample): an options array of eleven identical texts
violates both the upper length bound and case-insensitive uniqueness, yet
createPoll does not fail with the validation response: the poll is created
and persisted. -/
theorem C5_options_not_validated :
    10 < optsEx5.length ∧
    createPoll (some optsEx5) =
      CreateResult.created (List.replicate 11 { text := "x", votes := 0 }) := by
  constructor
  · decide
  · decide

/-- C5 (amended): createPoll fails with the validation response exactly
when fewer than two options are supplied; the upper bound of ten options,
the 200-character cap and case-insensitive uniqueness are not checked, so
such requests are not rejected as validation errors (an option whose text
trims to empty is instead rejected at the schema level as a generic store
error). -/
theorem C5_amended_validation (l : List String) :
    createPoll (some l) = CreateResult.validationError ↔ l.length < 2 := by
  simp only [createPoll]
  by_cases h : l.length < 2
  · simp [h]
  · rw [if_neg h]
    by_cases he : (l.any fun s => strTrim s = "") = true
    · rw [if_pos he]
      simp [h]
    · rw [if_neg he]
      simp [h]

end LeoConnect
